import Mathlib

/-!
Verification of the route optimizer and traffic-light optimizer of this
repository, as a shallow embedding in Lean 4.

Conventions of the embedding:

* Machine floats of the source are modelled by `ℚ`.  All matrix entries,
  coordinates, timestamps and speeds are rationals; the algorithms of the
  source only add, multiply, divide and compare such values, so every
  computation below is exact where the source computes with doubles.
* Python `int(x)` (truncation toward zero) is modelled by `pyInt`;
  Python `%` on integers is `Int.emod` (both give a result with the sign
  of the divisor, hence nonnegative for positive divisors).
* The duration matrix handed to `optimize_route` is taken after the
  in-place traffic-multiplier adjustment of the source (lines 123-137 of
  `route_optimizer.py`); the claims quantify over every matrix, so the
  adjustment is absorbed into the quantification.
* The planar point distance `math.sqrt((x1-x2)**2 + (y1-y2)**2)` used by
  `detect_traffic_lights_on_route` is irrational in general; the
  detection code is therefore parameterised by the segment-distance
  function `pdist` it uses, both for the cumulative along-route distances
  and for the exact radius check.  The claims about detection are
  relations between the numbers the code produces from `pdist`, so they
  hold for the Euclidean instance in particular.
* `random.seed` / `random.random` / `random.randint` of Python are
  modelled by an abstract deterministic generator interface `PRG`; the
  module-level generator state before a call is passed in explicitly and,
  exactly as in the source, discarded by `random.seed(seed_val)`.
-/

/-- Python `int(x)`: truncation toward zero, for rationals. -/
def pyInt (q : ℚ) : ℤ := if q < 0 then -⌊-q⌋ else ⌊q⌋

/-- Python float modulo `a % b` (result has the sign of `b`; used with
`b = 3600` on a nonnegative `a`), i.e. `a - b * ⌊a / b⌋`. -/
def pyModQ (a b : ℚ) : ℚ := a - b * ⌊a / b⌋

/-- Python `round` half-to-even, to an integer. -/
def roundHalfEven (q : ℚ) : ℤ :=
  let f : ℤ := ⌊q⌋
  let r : ℚ := q - f
  if r < 1/2 then f
  else if 1/2 < r then f + 1
  else if f % 2 = 0 then f else f + 1

/-- Python `round(x, 5)`. -/
def round5 (q : ℚ) : ℚ := (roundHalfEven (q * 100000) : ℚ) / 100000

/-! ## Traffic-light module: data model (`traffic_light_optimizer.py`) -/

/-- The signal phase returned by `estimate_traffic_light_delay`
(`'green'` / `'yellow'` / `'red'` in the source). -/
inductive LightStatus where
  | green
  | yellow
  | red
deriving DecidableEq

/-- The intersection class of a simulated light
(`small_intersection` … `complex_intersection` in the source). -/
inductive IntersectionType where
  | small
  | medium
  | large
  | complex
deriving DecidableEq

/-- Timing data of one simulated signalized intersection: the fields of a
`TRAFFIC_LIGHT_MAP` entry that the phase computation reads.  All four are
integers in the source (`random.randint` results, `int(cycle_time * 0.4)`
and the constant `3`). -/
structure LightTiming where
  itype : IntersectionType
  cycle_time : ℤ
  offset : ℤ
  green_time : ℤ
  yellow_time : ℤ
deriving DecidableEq

/-- `TRAFFIC_LIGHT_CYCLES[t]['min']` of the source. -/
def cycleMin : IntersectionType → ℤ
  | .small => 45
  | .medium => 60
  | .large => 90
  | .complex => 120

/-- `TRAFFIC_LIGHT_CYCLES[t]['max']` of the source. -/
def cycleMax : IntersectionType → ℤ
  | .small => 60
  | .medium => 90
  | .large => 120
  | .complex => 180

/-- `(int(seconds_since_epoch) + offset) % cycle_time` of
`estimate_traffic_light_delay` (line 211 of the source). -/
def cyclePosition (L : LightTiming) (ts : ℚ) : ℤ :=
  (pyInt ts + L.offset) % L.cycle_time

/-- The branch structure of `estimate_traffic_light_delay` after the
cycle position has been computed (lines 213-243 of the source): the
green / yellow / red split, with the red phase bucketed by
`red_fraction` into delays 30 / 20 / 5.  Delay constants are
`TRAFFIC_LIGHT_DELAYS`. -/
def estimateFromPos (L : LightTiming) (pos : ℤ) : ℚ × LightStatus :=
  if pos < L.green_time then (0, .green)
  else if pos < L.green_time + L.yellow_time then (5, .yellow)
  else
    let red_time : ℤ := L.cycle_time - L.green_time - L.yellow_time
    let red_position : ℤ := pos - L.green_time - L.yellow_time
    let red_fraction : ℚ := (red_position : ℚ) / (red_time : ℚ)
    if red_fraction < 1/4 then (30, .red)
    else if red_fraction < 3/4 then (20, .red)
    else (5, .red)

/-- `estimate_traffic_light_delay(light_info, arrival_time)` with the
arrival time given as a timestamp in seconds since the epoch
(`arrival_time.timestamp()` of the source, a real number). -/
def estimate_traffic_light_delay (L : LightTiming) (ts : ℚ) : ℚ × LightStatus :=
  estimateFromPos L (cyclePosition L ts)

/-- One intermediate best candidate of the speed search of
`optimize_arrival_time` (`best_speed`, `best_delay`, `best_status`,
`best_arrival` in the source). -/
structure SpeedCand where
  speed : ℚ
  delay : ℚ
  status : LightStatus
  arrival : ℚ
deriving DecidableEq

/-- The advisory record `optimize_arrival_time` builds on success.  The
presentation-only fields of the source (messages, km/h conversions) are
omitted; `time_saved`, `suggested_speed`, `optimized`, the status and the
arrival timestamp are kept. -/
structure Advisory where
  optimized : Bool
  suggested_speed : ℚ
  time_saved : ℚ
  current_status : LightStatus
  arrival_time : ℚ
deriving DecidableEq

/-- The result of `optimize_arrival_time`: either the structured failure
dict `{"success": False, ...}` or a success advisory. -/
inductive SpeedResult where
  | failure
  | ok (adv : Advisory)
deriving DecidableEq

/-- The candidate loop of `optimize_arrival_time` (lines 296-309 of the
source): fold over the test speeds, replacing the best candidate on a
strictly smaller delay, and break out of the loop as soon as a test
speed hits a green phase. -/
def searchSpeeds (L : LightTiming) (t dist : ℚ) :
    List ℚ → SpeedCand → SpeedCand
  | [], best => best
  | s :: rest, best =>
    let arr := t + dist / s
    let e := estimate_traffic_light_delay L arr
    let best1 := if e.1 < best.delay then ⟨s, e.1, e.2, arr⟩ else best
    if e.2 = .green then best1 else searchSpeeds L t dist rest best1

/-- The list of test speeds
`[min_speed + 0.5*i for i in range(int((max_speed-min_speed)/0.5)+1)]`
(line 296 of the source); empty when the truncated count is not
positive, exactly as Python's `range`. -/
def testSpeeds (minS maxS : ℚ) : List ℚ :=
  (List.range (pyInt ((maxS - minS) / (1/2)) + 1).toNat).map
    (fun i => minS + (1/2) * (i : ℚ))

/-- `optimize_arrival_time(light_info, current_time, current_speed,
distance_to_light)` of the source, with times as epoch-second
rationals. -/
def optimize_arrival_time (L : LightTiming) (t speed dist : ℚ) : SpeedResult :=
  if speed ≤ 0 then .failure
  else
    let base_arrival := t + dist / speed
    let base := estimate_traffic_light_delay L base_arrival
    if base.2 = .green then
      .ok ⟨false, speed, 0, base.2, base_arrival⟩
    else
      let min_speed := max (speed * (4/5)) 5
      let max_speed := min (speed * (6/5)) 30
      let best := searchSpeeds L t dist (testSpeeds min_speed max_speed)
        ⟨speed, base.1, base.2, base_arrival⟩
      let optimized : Bool := decide (¬ best.speed = speed)
      .ok ⟨optimized, best.speed, base.1 - best.delay, best.status, best.arrival⟩

/-! ## Traffic-light map generation (`initialize_traffic_light_map`) -/

/-- A geographic point `[lon, lat]`. -/
abbrev GeoPoint : Type := ℚ × ℚ

/-- An abstract deterministic pseudo-random generator: the model of
Python's `random` module.  `seed` rebuilds the state from an integer,
`rnd` is `random.random()` (a rational in `[0,1)`), `randint a b` is
`random.randint(a, b)`. -/
structure PRG where
  State : Type
  seed : ℤ → State
  rnd : State → ℚ × State
  randint : ℤ → ℤ → State → ℤ × State

/-- `seed_val = int((min_lon + max_lon + min_lat + max_lat) * 1000) % 100000`
(line 57 of the source). -/
def seedVal (bounds : GeoPoint × GeoPoint) : ℤ :=
  pyInt ((bounds.1.1 + bounds.2.1 + bounds.1.2 + bounds.2.2) * 1000) % 100000

/-- The intersection classification of `initialize_traffic_light_map`
(lines 77-89 of the source).  The source compares
`distance_to_center / max_distance` (a quotient of square roots) against
0.2 / 0.4 / 0.7, with ratio 0 when `max_distance == 0`; squares of both
sides are compared here, which is equivalent because all quantities are
nonnegative and squaring is monotone. -/
def classifyIntersection (distSq maxDistSq : ℚ) : IntersectionType :=
  if 0 < maxDistSq then
    if distSq < (1/25) * maxDistSq then .complex
    else if distSq < (4/25) * maxDistSq then .large
    else if distSq < (49/100) * maxDistSq then .medium
    else .small
  else .complex

/-- Python dict assignment `m[k] = v`: replace in place if the key is
present, otherwise append. -/
def dictInsert (k : GeoPoint) (v : LightTiming) :
    List (GeoPoint × LightTiming) → List (GeoPoint × LightTiming)
  | [] => [(k, v)]
  | (k0, v0) :: rest =>
    if k0 = k then (k, v) :: rest else (k0, v0) :: dictInsert k v rest

/-- The generation loop of `initialize_traffic_light_map` (lines 70-107
of the source): per light, draw `distance_factor`, the two position
samples, classify by squared distance to the box center, draw the cycle
time and offset, set `green_time = int(cycle_time * 0.4)` (equal to
`⌊0.4·c⌋ = 2c/5` rounded down, see the note on floats) and
`yellow_time = 3`, and store under the 5-decimal-rounded key. -/
def genLights (G : PRG) (minLon minLat maxLon maxLat centerLon centerLat : ℚ) :
    ℕ → G.State → List (GeoPoint × LightTiming) → List (GeoPoint × LightTiming)
  | 0, _, m => m
  | k + 1, s, m =>
    let p1 := G.rnd s
    let distance_factor := p1.1
    let p2 := G.rnd p1.2
    let lon := minLon + (maxLon - minLon) * (1/2 + (p2.1 - 1/2) * distance_factor)
    let p3 := G.rnd p2.2
    let lat := minLat + (maxLat - minLat) * (1/2 + (p3.1 - 1/2) * distance_factor)
    let distSq := (lon - centerLon) * (lon - centerLon) +
      (lat - centerLat) * (lat - centerLat)
    let maxDistSq := (maxLon - centerLon) * (maxLon - centerLon) +
      (maxLat - centerLat) * (maxLat - centerLat)
    let ity := classifyIntersection distSq maxDistSq
    let p4 := G.randint (cycleMin ity) (cycleMax ity) p3.2
    let cycle_time := p4.1
    let p5 := G.randint 0 (cycle_time - 1) p4.2
    let offset := p5.1
    let info : LightTiming := ⟨ity, cycle_time, offset, 2 * cycle_time / 5, 3⟩
    genLights G minLon minLat maxLon maxLat centerLon centerLat k p5.2
      (dictInsert (round5 lon, round5 lat) info m)

/-- `initialize_traffic_light_map(region_bounds)` of the source, with
the pre-call state of the process-wide generator passed in explicitly
(`preState`); the call `random.seed(seed_val)` replaces that state, so
`preState` is discarded, and the map is rebuilt from scratch
(`TRAFFIC_LIGHT_MAP = {}`).  `region_bounds` is
`[[min_lon, min_lat], [max_lon, max_lat]]`. -/
def initialize_traffic_light_map (G : PRG) (preState : G.State)
    (bounds : GeoPoint × GeoPoint) : List (GeoPoint × LightTiming) :=
  let minLon := bounds.1.1
  let minLat := bounds.1.2
  let maxLon := bounds.2.1
  let maxLat := bounds.2.2
  let s0 := G.seed (seedVal bounds)
  let centerLon := (minLon + maxLon) / 2
  let centerLat := (minLat + maxLat) / 2
  let areaSize := (maxLon - minLon) * (maxLat - minLat)
  let numLights : ℤ := max 10 (min 100 (pyInt (areaSize * 50000)))
  genLights G minLon minLat maxLon maxLat centerLon centerLat numLights.toNat s0 []

/-! ## Light detection (`detect_traffic_lights_on_route`) -/

/-- One entry of the `found_lights` list of
`detect_traffic_lights_on_route` (lines 172-181 of the source): the map
key (`coordinates` of the entry), the along-route distance of the route
point that first brought the light into radius, that point's index, and
the copied timing fields. -/
structure FoundLight where
  key : GeoPoint
  distance_along_route : ℚ
  route_point_index : ℕ
  cycle_time : ℤ
  itype : IntersectionType
  offset : ℤ
  green_time : ℤ
  yellow_time : ℤ
deriving DecidableEq

/-- The `route_distances` construction of the source (lines 144-155):
`route_distances = [0.0]`, then for each point of `route_geometry[1:]`
add the segment distance from `prev_point` — but `prev_point` starts as
`None`, so the very first iteration appends `0.0` without adding the
segment from point 0 to point 1.  `pdist` is the model of the planar
segment distance `math.sqrt((Δlon)**2 + (Δlat)**2)`. -/
def routeDistancesAux (pdist : GeoPoint → GeoPoint → ℚ) (acc : ℚ)
    (prev : Option GeoPoint) : List GeoPoint → List ℚ
  | [] => []
  | p :: rest =>
    match prev with
    | none => acc :: routeDistancesAux pdist acc (some p) rest
    | some q =>
      let a := acc + pdist q p
      a :: routeDistancesAux pdist a (some p) rest

/-- `route_distances` for a whole route geometry. -/
def routeDistances (pdist : GeoPoint → GeoPoint → ℚ) (route : List GeoPoint) :
    List ℚ :=
  0 :: routeDistancesAux pdist 0 none (route.drop 1)

/-- The inner loop of the detection (lines 161-182 of the source): for a
fixed route point `p` with index `i` and along-route distance `dAlong`,
scan all map entries; on a bounding-box prefilter hit for a key not yet
in `checked_lights`, do the exact distance check and, on success, append
the found light and mark the key as consumed. -/
def detectPoint (pdist : GeoPoint → GeoPoint → ℚ) (rdeg : ℚ) (dAlong : ℚ)
    (i : ℕ) (p : GeoPoint) :
    List (GeoPoint × LightTiming) → List FoundLight × List GeoPoint →
    List FoundLight × List GeoPoint
  | [], st => st
  | (k, info) :: rest, (found, checked) =>
    if |p.1 - k.1| ≤ rdeg ∧ |p.2 - k.2| ≤ rdeg ∧ ¬ k ∈ checked then
      if pdist p k ≤ rdeg then
        detectPoint pdist rdeg dAlong i p rest
          (found ++ [⟨k, dAlong, i, info.cycle_time, info.itype, info.offset,
            info.green_time, info.yellow_time⟩], checked ++ [k])
      else detectPoint pdist rdeg dAlong i p rest (found, checked)
    else detectPoint pdist rdeg dAlong i p rest (found, checked)

/-- The outer loop of the detection: `for i, point in
enumerate(route_geometry)`. -/
def detectPoints (M : List (GeoPoint × LightTiming))
    (pdist : GeoPoint → GeoPoint → ℚ) (rdeg : ℚ) (dists : List ℚ) :
    ℕ → List GeoPoint → List FoundLight × List GeoPoint →
    List FoundLight × List GeoPoint
  | _, [], st => st
  | i, p :: rest, st =>
    detectPoints M pdist rdeg dists (i + 1) rest
      (detectPoint pdist rdeg (dists.getD i 0) i p M st)

/-- The sort key of line 185 of the source:
`found_lights.sort(key=lambda x: x['distance_along_route'])`. -/
def byDistAlong (a b : FoundLight) : Prop :=
  a.distance_along_route ≤ b.distance_along_route

instance : DecidableRel byDistAlong :=
  fun a b =>
    inferInstanceAs (Decidable (a.distance_along_route ≤ b.distance_along_route))

instance : IsTotal FoundLight byDistAlong :=
  ⟨fun a b => le_total a.distance_along_route b.distance_along_route⟩

instance : IsTrans FoundLight byDistAlong :=
  ⟨fun _ _ _ h1 h2 => le_trans h1 h2⟩

/-- `detect_traffic_lights_on_route(route_geometry, radius_meters)` of
the source, parameterised by the current traffic-light map `M` (the
process-wide `TRAFFIC_LIGHT_MAP`; the lazy re-initialization for an
empty map is part of the map's lifecycle, not of the detection, and the
claims quantify over every current map) and by the planar segment
distance `pdist`.  `radius_deg = radius_meters * 0.000009` (line 139).
A stable sort by along-route distance models `list.sort`. -/
def detect_traffic_lights_on_route (M : List (GeoPoint × LightTiming))
    (pdist : GeoPoint → GeoPoint → ℚ) (route : List GeoPoint)
    (radius_meters : ℚ) : List FoundLight :=
  let rdeg := radius_meters * (9 / 1000000)
  let dists := routeDistances pdist route
  let st := detectPoints M pdist rdeg dists 0 route ([], [])
  List.insertionSort byDistAlong st.1

/-- The claim's reference value for `distance_along_route`, following
the words of the spec: the cumulative planar distance summed over
consecutive route points from the route's first point up to the route
point at index `i`. -/
def cumPlanarDistance (pdist : GeoPoint → GeoPoint → ℚ) :
    List GeoPoint → ℕ → ℚ
  | _, 0 => 0
  | [], _ + 1 => 0
  | [_], _ + 1 => 0
  | p :: q :: rest, i + 1 => pdist p q + cumPlanarDistance pdist (q :: rest) i

/-! ## Route order optimizer (`optimize_route` of `route_optimizer.py`) -/

/-- A duration (or distance) matrix, indexed by waypoint indices.  The
source reads `durations[i][j]`; entries are the (traffic-adjusted)
float values of the provider, modelled as rationals. -/
abbrev Mat : Type := ℕ → ℕ → ℚ

/-- The running sum of consecutive-edge costs along an index order
(`for i in range(len(route) - 1): total += durations[route[i]][route[i+1]]`
of the source). -/
def totalDuration (d : Mat) : List ℕ → ℚ
  | a :: b :: rest => d a b + totalDuration d (b :: rest)
  | _ => 0

/-- The cost of the edge from the last element of `xs` to `y` (zero when
`xs` is empty); the edge a concatenation `xs ++ y :: _` adds between its
two parts. -/
def lastEdge (d : Mat) (xs : List ℕ) (y : ℕ) : ℚ :=
  match xs.getLast? with
  | none => 0
  | some a => d a y

/-- `itertools.permutations`, fueled by the list length: for input
`l`, emit, for each position `i` in order, `l[i]` consed onto each
permutation of the remaining elements — which is exactly the
lexicographic-by-position order `itertools.permutations` produces. -/
def permsAux : ℕ → List ℕ → List (List ℕ)
  | 0, _ => [[]]
  | fuel + 1, l =>
    (List.range l.length).flatMap
      (fun i => (permsAux fuel (l.eraseIdx i)).map (fun p => l.getD i 0 :: p))

/-- `itertools.permutations(l)` as a list of lists. -/
def permsPy (l : List ℕ) : List (List ℕ) := permsAux l.length l

/-- The candidate routes of the brute-force branch (lines 148-149 of the
source): `[start] + list(perm)` for each permutation of `1..n-1`, in
`itertools.permutations` enumeration order. -/
def bfCandidates (n : ℕ) : List (List ℕ) :=
  (permsPy (List.range' 1 (n - 1))).map (fun p => 0 :: p)

/-- One step of the brute-force minimum scan (lines 158-160 of the
source): keep the incumbent unless the new total is strictly smaller
(`float('inf')` start is modelled by the `none` accumulator, which the
first candidate always replaces). -/
def bfStep (d : Mat) (acc : Option (List ℕ × ℚ)) (route : List ℕ) :
    Option (List ℕ × ℚ) :=
  let t := totalDuration d route
  match acc with
  | none => some (route, t)
  | some (br, bd) => if t < bd then some (route, t) else some (br, bd)

/-- The brute-force branch of `optimize_route` for `n ≤ 6` (lines
140-163 of the source); returns the winning `best_route_indices`. -/
def bruteForceRoute (d : Mat) (n : ℕ) : List ℕ :=
  match (bfCandidates n).foldl (bfStep d) none with
  | none => []
  | some (br, _) => br

/-- A pure reformulation of the brute-force scan: fold the strict-
improvement rule starting from incumbent `b`. -/
def pickBest (d : Mat) (b : List ℕ) : List (List ℕ) → List ℕ
  | [] => b
  | r :: rest =>
    if totalDuration d r < totalDuration d b then pickBest d r rest
    else pickBest d b rest

/-- Python `min(l, key=f)` for a nonempty list: the first element
attaining the minimal key (strict-inequality fold).  The source applies
it to the set `unvisited` of small integers, whose CPython iteration
order is ascending, matching the ascending lists used here. -/
def argminFirst (f : ℕ → ℚ) : List ℕ → ℕ
  | [] => 0
  | x :: xs => xs.foldl (fun b y => if f y < f b then y else b) x

/-- The nearest-neighbour construction (lines 168-179 of the source):
append the unvisited index nearest to the current one until none are
left.  Fueled by the number of unvisited indices. -/
def nnLoop (d : Mat) : ℕ → ℕ → List ℕ → List ℕ → List ℕ
  | 0, _, acc, _ => acc
  | _ + 1, _, acc, [] => acc
  | fuel + 1, current, acc, x :: xs =>
    let nearest := argminFirst (fun y => d current y) (x :: xs)
    nnLoop d fuel nearest (acc ++ [nearest]) ((x :: xs).erase nearest)

/-- The nearest-neighbour seed route of the `7 ≤ n ≤ 12` branch. -/
def nnRoute (d : Mat) (n : ℕ) : List ℕ :=
  nnLoop d (n - 1) 0 [0] (List.range' 1 (n - 1))

/-- The boundary-edge comparison of one candidate 2-opt move (lines
188-192 of the source): accept `(i, j)` when
`durations[r[i-1]][r[j-1]] + durations[r[i]][r[j]] <
 durations[r[i-1]][r[i]] + durations[r[j-1]][r[j]]`. -/
def swapImproves (d : Mat) (r : List ℕ) (i j : ℕ) : Prop :=
  d (r.getD (i - 1) 0) (r.getD (j - 1) 0) + d (r.getD i 0) (r.getD j 0) <
    d (r.getD (i - 1) 0) (r.getD i 0) + d (r.getD (j - 1) 0) (r.getD j 0)

instance (d : Mat) (r : List ℕ) (i j : ℕ) : Decidable (swapImproves d r i j) :=
  inferInstanceAs (Decidable (_ < _))

/-- The scan order of the nested 2-opt loops of the source:
`for i in range(1, len(r) - 1): for j in range(i + 1, len(r))`. -/
def swapPairs (len : ℕ) : List (ℕ × ℕ) :=
  (List.range' 1 (len - 2)).flatMap
    (fun i => (List.range' (i + 1) (len - 1 - i)).map (fun j => (i, j)))

/-- First improving pair in scan order, if any. -/
def findSwapAux (d : Mat) (r : List ℕ) : List (ℕ × ℕ) → Option (ℕ × ℕ)
  | [] => none
  | (i, j) :: rest =>
    if swapImproves d r i j then some (i, j) else findSwapAux d r rest

/-- The inner double loop of the 2-opt phase: the first improving pair
under the scan order, or `none` when a full scan finds no improvement
(loop exit). -/
def findSwap (d : Mat) (r : List ℕ) : Option (ℕ × ℕ) :=
  findSwapAux d r (swapPairs r.length)

/-- `route_indices[i:j] = reversed(route_indices[i:j])` (line 194 of the
source): reverse the slice of positions `i, …, j-1`. -/
def applySwap (r : List ℕ) (i j : ℕ) : List ℕ :=
  r.take i ++ ((r.drop i).take (j - i)).reverse ++ r.drop j

/-- The `while improved` loop of the 2-opt phase (lines 182-198 of the
source): repeat "find the first improving pair in scan order and apply
it, restarting the scan" until no pair improves.  The Python loop is
unbounded; `fuel` bounds the number of accepted moves, and any fuel at
or above the index at which the loop reaches a fixpoint yields the
Python result. -/
def twoOptLoop (d : Mat) : ℕ → List ℕ → List ℕ
  | 0, r => r
  | fuel + 1, r =>
    match findSwap d r with
    | none => r
    | some (i, j) => twoOptLoop d fuel (applySwap r i j)

/-- `connecting_score` of the hybrid branch (lines 227-236 of the
source): the number of other remaining points for which a detour via
`point` costs less than `1.2` times the direct duration (the float
literal `1.2` is the source's; its exact double value differs from
`6/5` by `2^-53`-scale noise that the claims do not touch). -/
def connScore (d : Mat) (current point : ℕ) (remaining : List ℕ) : ℕ :=
  (remaining.filter
    (fun other => decide (¬ other = point) &&
      decide (d current point + d point other < d current other * (6/5)))).length

/-- The `N > 12` hybrid loop (lines 214-242 of the source): append the
nearest remaining point; then, if at least two points remain, append the
first remaining point whose `connecting_score` is positive (computed
against the pre-move `current`).  Fueled by the number of remaining
points. -/
def hybridLoop (d : Mat) : ℕ → List ℕ → List ℕ → List ℕ
  | 0, acc, _ => acc
  | _ + 1, acc, [] => acc
  | fuel + 1, acc, x :: xs =>
    let current := acc.getLastD 0
    let closest := argminFirst (fun y => d current y) (x :: xs)
    let acc1 := acc ++ [closest]
    let rem1 := (x :: xs).erase closest
    if 2 ≤ rem1.length then
      match rem1.find? (fun p => decide (0 < connScore d current p rem1)) with
      | some p => hybridLoop d fuel (acc1 ++ [p]) (rem1.erase p)
      | none => hybridLoop d fuel acc1 rem1
    else hybridLoop d fuel acc1 rem1

/-- The hybrid route of the `N > 12` branch. -/
def hybridRoute (d : Mat) (n : ℕ) : List ℕ :=
  hybridLoop d (n - 1) [0] (List.range' 1 (n - 1))

/-- The strategy dispatch of `optimize_route` (lines 139-250 of the
source), producing `best_route_indices`.  `fuel` bounds the 2-opt
loop (see `twoOptLoop`); the other branches ignore it. -/
def routeOrder (d : Mat) (n fuel : ℕ) : List ℕ :=
  if n ≤ 6 then bruteForceRoute d n
  else if n ≤ 12 then twoOptLoop d fuel (nnRoute d n)
  else hybridRoute d n

/-- The value `optimize_route` returns, with the two formatted strings
modelled by the numbers they render: `time_str = f"{hours}h {minutes}m"`
as the pair `(hours, minutes)` and `distance_str = f"{dist:.1f}"` as
`distTenths` (the rendered digits equal `distTenths / 10`, rounded
half-to-even). -/
structure RouteResult where
  order : List ℕ
  hours : ℤ
  minutes : ℤ
  distTenths : ℤ
deriving DecidableEq

/-- `optimize_route` of the source for an available matrix (lines
96-270): dispatch on the strategy, then format.  Faithfully to the
source, `route_duration` is initialised to `0` (line 103) and summed
over the final order only in the `N > 12` branch (lines 244-249); the
`N ≤ 6` and `7 ≤ N ≤ 12` branches leave it at `0`.  The total distance
is summed over the final order for every branch (lines 255-260);
`hours = int(route_duration / 3600)` and
`minutes = int((route_duration % 3600) / 60)` (lines 263-264).  The
`n ≤ 1` early return (line 107) yields the trivial route with zero
cost. -/
def optimize_route (d dist : Mat) (n fuel : ℕ) : RouteResult :=
  if n ≤ 1 then ⟨List.range n, 0, 0, 0⟩
  else
    let order := routeOrder d n fuel
    let route_duration : ℚ := if 12 < n then totalDuration d order else 0
    let total_distance : ℚ := totalDuration dist order
    { order := order
      hours := pyInt (route_duration / 3600)
      minutes := pyInt (pyModQ route_duration 3600 / 60)
      distTenths := roundHalfEven (total_distance * 10) }

/-! ## Concrete instances used by witnesses and counterexamples -/

/-- The 4-waypoint duration matrix of the spec's brute-force scenario. -/
def durTable4 : List (List ℚ) :=
  [[0, 10, 15, 20], [10, 0, 35, 25], [15, 35, 0, 30], [20, 25, 30, 0]]

/-- The scenario matrix as a `Mat`. -/
def dEx4 : Mat := fun i j => (durTable4.getD i []).getD j 0

/-- An asymmetric 7-waypoint duration matrix. -/
def durTable7 : List (List ℚ) :=
  [[0, 4, 5, 5, 5, 9, 6], [3, 0, 8, 2, 2, 9, 7], [3, 3, 0, 5, 7, 4, 1],
   [8, 7, 6, 0, 7, 9, 3], [9, 1, 9, 2, 0, 5, 2], [5, 2, 3, 2, 8, 0, 4],
   [7, 7, 7, 3, 6, 8, 0]]

/-- The asymmetric matrix as a `Mat`. -/
def dEx7 : Mat := fun i j => (durTable7.getD i []).getD j 0

/-- A symmetric duration matrix (distances on the integer line). -/
def dSym : Mat := fun i j => |(i : ℚ) - (j : ℚ)|

/-- A two-waypoint duration matrix: one hour between the waypoints. -/
def dC1 : Mat := fun i j => if i = j then 0 else 3600

/-- A two-waypoint distance matrix: 5 km between the waypoints. -/
def distC1 : Mat := fun i j => if i = j then 0 else 5

/-- A light with `cycle_time = 60`, `offset = 0`, `green_time = 24`,
`yellow_time = 3` (the spec's phase scenario light). -/
def light60 : LightTiming := ⟨.medium, 60, 0, 24, 3⟩

/-- Taxicab planar metric; coincides with the Euclidean metric on
axis-aligned segments, and is a valid instance of the abstract segment
distance `pdist`. -/
def pdistTaxi : GeoPoint → GeoPoint → ℚ := fun p q => |p.1 - q.1| + |p.2 - q.2|

/-- A map with a single light at `(2, 0)`. -/
def mapC5 : List (GeoPoint × LightTiming) := [(((2 : ℚ), (0 : ℚ)), light60)]

/-- A three-point route along the x-axis with unit segments. -/
def routeC5 : List GeoPoint := [(0, 0), (1, 0), (2, 0)]

/-! ## Helper lemmas -/

theorem searchSpeeds_delay_le (L : LightTiming) (t dist : ℚ) :
    ∀ (l : List ℚ) (b : SpeedCand), (searchSpeeds L t dist l b).delay ≤ b.delay := by
  intro l
  induction l with
  | nil => intro b; exact le_refl _
  | cons s rest ih =>
    intro b
    simp only [searchSpeeds]
    by_cases hg : (estimate_traffic_light_delay L (t + dist / s)).2 = LightStatus.green
    · rw [if_pos hg]
      by_cases hlt : (estimate_traffic_light_delay L (t + dist / s)).1 < b.delay
      · rw [if_pos hlt]; exact le_of_lt hlt
      · rw [if_neg hlt]
    · rw [if_neg hg]
      by_cases hlt : (estimate_traffic_light_delay L (t + dist / s)).1 < b.delay
      · rw [if_pos hlt]; exact le_trans (ih _) (le_of_lt hlt)
      · rw [if_neg hlt]; exact ih b

theorem cyclePosition_add_cycle (L : LightTiming) (t : ℚ)
    (hc : 0 < L.cycle_time) (ht : 0 ≤ t) :
    cyclePosition L (t + L.cycle_time) = cyclePosition L t := by
  have hcq : (0 : ℚ) < (L.cycle_time : ℚ) := by exact_mod_cast hc
  unfold cyclePosition pyInt
  rw [if_neg (not_lt.mpr ht), if_neg (not_lt.mpr (by linarith : (0 : ℚ) ≤ t + L.cycle_time))]
  rw [Int.floor_add_int t L.cycle_time]
  have h4 : ⌊t⌋ + L.cycle_time + L.offset = ⌊t⌋ + L.offset + L.cycle_time := by ring
  rw [h4, Int.add_emod_self]

/-! ## Claims -/

/-- Claim C6: for every bounding box, two calls of
`initialize_traffic_light_map` with the same box produce identical
traffic-light maps — the same rounded keys and, per key, the same
intersection type, cycle time, offset, green time and yellow time —
independently of the process-wide generator state before each call,
because `random.seed(seed_val)` rebuilds that state from the box corners
alone. -/
theorem c6_two_run_determinism :
    ∀ (G : PRG) (s1 s2 : G.State) (bounds : GeoPoint × GeoPoint),
      initialize_traffic_light_map G s1 bounds =
        initialize_traffic_light_map G s2 bounds :=
  fun _ _ _ _ => rfl

/-- Claim C7, counterexample: the light of the spec's scenario
(`cycle_time = 60`, `offset = 0`, `green_time = 24`, `yellow_time = 3`,
which satisfies the claim's premise `green_time + yellow_time <
cycle_time`) violates periodicity at the arrival timestamp `t = -1/2`
(half a second before the epoch): `int()` truncates toward zero, so the
cycle position at `t` is `0` (green) while at `t + 60` it is `59`
(red). -/
theorem c7_counterexample :
    light60.green_time + light60.yellow_time < light60.cycle_time ∧
      estimate_traffic_light_delay light60 (-(1/2) + 60) ≠
        estimate_traffic_light_delay light60 (-(1/2)) := by
  with_unfolding_all decide

/-- Claim C7, amended: for every light timing record with a positive
cycle and `green_time + yellow_time < cycle_time`, and every
**nonnegative** arrival timestamp `t`, `estimate_traffic_light_delay`
returns the same (delay, status) pair for `t` and `t + cycle_time`.
(The code truncates the timestamp toward zero, so periodicity holds on
the nonnegative timestamps but fails across the epoch.) -/
theorem c7_periodicity_nonneg (L : LightTiming) (t : ℚ)
    (hc : 0 < L.cycle_time)
    (hgy : L.green_time + L.yellow_time < L.cycle_time) (ht : 0 ≤ t) :
    estimate_traffic_light_delay L (t + L.cycle_time) =
      estimate_traffic_light_delay L t :=
  congrArg (estimateFromPos L) (cyclePosition_add_cycle L t hc ht)

/-- Witness for `c7_periodicity_nonneg` at `light60`, `t = 5`. -/
theorem c7_periodicity_nonneg_witness :
    (0 : ℤ) < light60.cycle_time ∧
      light60.green_time + light60.yellow_time < light60.cycle_time ∧
      (0 : ℚ) ≤ 5 ∧
      estimate_traffic_light_delay light60 (5 + light60.cycle_time) =
        estimate_traffic_light_delay light60 5 :=
  ⟨by decide, by decide, by norm_num,
    c7_periodicity_nonneg light60 5 (by decide) (by decide) (by norm_num)⟩

/-- Claim C9: for every light timing record, timestamp and distance, a
call of the speed advisor `optimize_arrival_time` with a non-positive
current speed returns the structured failure result (the
`{"success": False}` dict of the source) and performs no speed search:
the failure value carries no advisory. -/
theorem c9_nonpositive_speed_failure (L : LightTiming) (t speed dist : ℚ)
    (h : speed ≤ 0) :
    optimize_arrival_time L t speed dist = SpeedResult.failure := by
  simp only [optimize_arrival_time, if_pos h]

/-- Witness for `c9_nonpositive_speed_failure` at speed `0`. -/
theorem c9_nonpositive_speed_failure_witness :
    (0 : ℚ) ≤ 0 ∧
      optimize_arrival_time light60 0 0 100 = SpeedResult.failure :=
  ⟨le_refl 0, c9_nonpositive_speed_failure light60 0 0 100 (le_refl 0)⟩

/-- Claim C10: for every light timing record, timestamp, positive
current speed and nonnegative distance, `optimize_arrival_time` returns
a success advisory with `time_saved ≥ 0`: the baseline delay at the
unmodified speed seeds the search and candidates only replace it on a
strictly smaller delay, so the reported best delay never exceeds the
baseline delay. -/
theorem c10_time_saved_nonneg (L : LightTiming) (t speed dist : ℚ)
    (hs : 0 < speed) (hd : 0 ≤ dist) :
    ∃ adv, optimize_arrival_time L t speed dist = SpeedResult.ok adv ∧
      0 ≤ adv.time_saved := by
  simp only [optimize_arrival_time, if_neg (not_le.mpr hs)]
  split
  · exact ⟨_, rfl, le_refl 0⟩
  · refine ⟨_, rfl, ?_⟩
    have h := searchSpeeds_delay_le L t dist
      (testSpeeds (max (speed * (4/5)) 5) (min (speed * (6/5)) 30))
      ⟨speed, (estimate_traffic_light_delay L (t + dist / speed)).1,
        (estimate_traffic_light_delay L (t + dist / speed)).2, t + dist / speed⟩
    simpa using sub_nonneg.mpr h

/-- Witness for `c10_time_saved_nonneg` at `light60`, `t = 0`,
speed `10`, distance `100`. -/
theorem c10_time_saved_nonneg_witness :
    (0 : ℚ) < 10 ∧ (0 : ℚ) ≤ 100 ∧
      ∃ adv, optimize_arrival_time light60 0 10 100 = SpeedResult.ok adv ∧
        0 ≤ adv.time_saved :=
  ⟨by norm_num, by norm_num, c10_time_saved_nonneg light60 0 10 100
    (by norm_num) (by norm_num)⟩

/-- Claim C1, code evaluation at the failing input: with two waypoints
one hour (3600 s) and 5 km apart, `optimize_route` returns the order
`[0, 1]` with formatted duration `0h 0m` — because `route_duration` is
initialised to `0` and only ever summed over the final order in the
`N > 12` branch, never in the `N ≤ 6` or `7 ≤ N ≤ 12` branches — while
the floor-hours and floor-minutes of the edge-sum duration along the
returned order are `1` and `0` (`"1h 0m"`), as the claim and the spec
state.  The formatted distance (50 tenths, `"5.0"`) does match the
edge-sum over the distance matrix. -/
theorem c1_code_eval :
    optimize_route dC1 distC1 2 0 = ⟨[0, 1], 0, 0, 50⟩ ∧
      pyInt (totalDuration dC1 [0, 1] / 3600) = 1 ∧
      pyInt (pyModQ (totalDuration dC1 [0, 1]) 3600 / 60) = 0 ∧
      roundHalfEven (totalDuration distC1 [0, 1] * 10) = 50 := by
  with_unfolding_all decide

/-- The key-uniqueness invariant of the detection scan: every key of a
found light is marked consumed in `checked_lights`, and the found keys
are pairwise distinct.  `detectPoint` preserves it. -/
theorem detectPoint_inv (pdist : GeoPoint → GeoPoint → ℚ) (rdeg dAlong : ℚ)
    (i : ℕ) (p : GeoPoint) :
    ∀ (m : List (GeoPoint × LightTiming)) (found : List FoundLight)
      (checked : List GeoPoint),
      ((found.map (fun e => e.key)).Nodup ∧ ∀ e ∈ found, e.key ∈ checked) →
      (((detectPoint pdist rdeg dAlong i p m (found, checked)).1.map
          (fun e => e.key)).Nodup ∧
        ∀ e ∈ (detectPoint pdist rdeg dAlong i p m (found, checked)).1,
          e.key ∈ (detectPoint pdist rdeg dAlong i p m (found, checked)).2) := by
  intro m
  induction m with
  | nil => intro found checked h; exact h
  | cons kv rest ih =>
    intro found checked h
    obtain ⟨kk, info⟩ := kv
    simp only [detectPoint]
    by_cases h1 : |p.1 - kk.1| ≤ rdeg ∧ |p.2 - kk.2| ≤ rdeg ∧ ¬ kk ∈ checked
    · rw [if_pos h1]
      by_cases h2 : pdist p kk ≤ rdeg
      · rw [if_pos h2]
        apply ih
        constructor
        · rw [List.map_append]
          apply List.Nodup.append h.1 (List.nodup_singleton kk)
          intro a ha hb
          rw [List.mem_singleton] at hb
          subst hb
          obtain ⟨e, he, hek⟩ := List.mem_map.mp ha
          exact h1.2.2 (hek ▸ h.2 e he)
        · intro e he
          rcases List.mem_append.mp he with he0 | he1
          · exact List.mem_append.mpr (Or.inl (h.2 e he0))
          · rw [List.mem_singleton] at he1
            subst he1
            exact List.mem_append.mpr (Or.inr (List.mem_singleton.mpr rfl))
      · rw [if_neg h2]; exact ih found checked h
    · rw [if_neg h1]; exact ih found checked h

/-- The outer detection loop preserves the key-uniqueness invariant. -/
theorem detectPoints_inv (M : List (GeoPoint × LightTiming))
    (pdist : GeoPoint → GeoPoint → ℚ) (rdeg : ℚ) (dists : List ℚ) :
    ∀ (route : List GeoPoint) (i : ℕ) (found : List FoundLight)
      (checked : List GeoPoint),
      ((found.map (fun e => e.key)).Nodup ∧ ∀ e ∈ found, e.key ∈ checked) →
      (((detectPoints M pdist rdeg dists i route (found, checked)).1.map
          (fun e => e.key)).Nodup ∧
        ∀ e ∈ (detectPoints M pdist rdeg dists i route (found, checked)).1,
          e.key ∈ (detectPoints M pdist rdeg dists i route (found, checked)).2) := by
  intro route
  induction route with
  | nil => intro i found checked h; exact h
  | cons p rest ih =>
    intro i found checked h
    simp only [detectPoints]
    have h1 := detectPoint_inv pdist rdeg (dists.getD i 0) i p M found checked h
    exact ih (i + 1)
      (detectPoint pdist rdeg (dists.getD i 0) i p M (found, checked)).1
      (detectPoint pdist rdeg (dists.getD i 0) i p M (found, checked)).2 h1

/-- Claim C8: for every traffic-light map, segment-distance function,
route geometry and radius, the list returned by
`detect_traffic_lights_on_route` contains no two entries with the same
intersection key — the `checked_lights` set suppresses later route
points that are also within radius of an already-found light — and its
entries are sorted ascending by `distance_along_route`. -/
theorem c8_nodup_keys_sorted (M : List (GeoPoint × LightTiming))
    (pdist : GeoPoint → GeoPoint → ℚ) (route : List GeoPoint)
    (radius_meters : ℚ) :
    ((detect_traffic_lights_on_route M pdist route radius_meters).map
        (fun e => e.key)).Nodup ∧
      List.Sorted byDistAlong
        (detect_traffic_lights_on_route M pdist route radius_meters) := by
  unfold detect_traffic_lights_on_route
  have h0 : (([] : List FoundLight).map (fun e => e.key)).Nodup ∧
      ∀ e ∈ ([] : List FoundLight), e.key ∈ ([] : List GeoPoint) := by
    simp
  have hinv := detectPoints_inv M pdist (radius_meters * (9 / 1000000))
    (routeDistances pdist route) route 0 [] [] h0
  constructor
  · have hperm := (List.perm_insertionSort byDistAlong
      (detectPoints M pdist (radius_meters * (9 / 1000000))
        (routeDistances pdist route) 0 route ([], [])).1).map (fun e => e.key)
    exact hperm.nodup_iff.mpr hinv.1
  · exact List.sorted_insertionSort byDistAlong _

/-- Claim C5, code evaluation at the failing input: a three-point route
along the x-axis with unit-length segments and a single light exactly at
the third route point (index 2).  The detection reports
`distance_along_route = 1` for that light, although the cumulative
planar distance from the route's first point to route point 2 is `2`:
the `route_distances` loop starts with `prev_point = None` and therefore
never adds the first segment (point 0 to point 1) into the cumulative
distance. -/
theorem c5_code_eval :
    detect_traffic_lights_on_route mapC5 pdistTaxi routeC5 30 =
        [⟨(2, 0), 1, 2, 60, IntersectionType.medium, 0, 24, 3⟩] ∧
      cumPlanarDistance pdistTaxi routeC5 2 = 2 := by
  with_unfolding_all decide

/-! ## Brute-force branch: optimality and tie-break -/

theorem bfFold_eq_pickBest (d : Mat) :
    ∀ (l : List (List ℕ)) (b : List ℕ),
      l.foldl (bfStep d) (some (b, totalDuration d b)) =
        some (pickBest d b l, totalDuration d (pickBest d b l)) := by
  intro l
  induction l with
  | nil => intro b; rfl
  | cons r rest ih =>
    intro b
    simp only [List.foldl_cons, bfStep, pickBest]
    by_cases h : totalDuration d r < totalDuration d b
    · rw [if_pos h, if_pos h]; exact ih r
    · rw [if_neg h, if_neg h]; exact ih b

theorem pickBest_le (d : Mat) :
    ∀ (l : List (List ℕ)) (b : List ℕ),
      totalDuration d (pickBest d b l) ≤ totalDuration d b ∧
        ∀ p ∈ l, totalDuration d (pickBest d b l) ≤ totalDuration d p := by
  intro l
  induction l with
  | nil => intro b; exact ⟨le_refl _, by simp⟩
  | cons r rest ih =>
    intro b
    simp only [pickBest]
    by_cases h : totalDuration d r < totalDuration d b
    · rw [if_pos h]
      refine ⟨le_trans (ih r).1 (le_of_lt h), ?_⟩
      intro p hp
      rcases List.mem_cons.mp hp with hp0 | hp1
      · exact hp0 ▸ (ih r).1
      · exact (ih r).2 p hp1
    · rw [if_neg h]
      refine ⟨(ih b).1, ?_⟩
      intro p hp
      rcases List.mem_cons.mp hp with hp0 | hp1
      · exact hp0 ▸ le_trans (ih b).1 (not_lt.mp h)
      · exact (ih b).2 p hp1

theorem pickBest_mem (d : Mat) :
    ∀ (l : List (List ℕ)) (b : List ℕ), pickBest d b l ∈ b :: l := by
  intro l
  induction l with
  | nil => intro b; simp [pickBest]
  | cons r rest ih =>
    intro b
    have hsub : pickBest d b (r :: rest) = pickBest d r rest ∨
        pickBest d b (r :: rest) = pickBest d b rest := by
      simp only [pickBest]
      by_cases h : totalDuration d r < totalDuration d b
      · rw [if_pos h]; exact Or.inl rfl
      · rw [if_neg h]; exact Or.inr rfl
    rcases hsub with he | he
    · rw [he]
      exact List.mem_cons_of_mem b (ih r)
    · rw [he]
      rcases List.mem_cons.mp (ih b) with h0 | h1
      · rw [h0]
        exact List.mem_cons_self b (r :: rest)
      · exact List.mem_cons_of_mem b (List.mem_cons_of_mem r h1)

theorem pickBest_first (d : Mat) :
    ∀ (l : List (List ℕ)) (b : List ℕ),
      (b :: l).find?
          (fun p => decide (totalDuration d p ≤ totalDuration d (pickBest d b l))) =
        some (pickBest d b l) := by
  intro l
  induction l with
  | nil =>
    intro b
    simp [pickBest, List.find?_cons]
  | cons r rest ih =>
    intro b
    by_cases h : totalDuration d r < totalDuration d b
    · have heq : pickBest d b (r :: rest) = pickBest d r rest := by
        simp only [pickBest]; rw [if_pos h]
      rw [heq]
      have hb : ¬ totalDuration d b ≤ totalDuration d (pickBest d r rest) :=
        not_le.mpr (lt_of_le_of_lt (pickBest_le d rest r).1 h)
      rw [List.find?_cons_of_neg _ (by simp [hb])]
      exact ih r
    · have heq : pickBest d b (r :: rest) = pickBest d b rest := by
        simp only [pickBest]; rw [if_neg h]
      rw [heq]
      have hIH := ih b
      by_cases hb : totalDuration d b ≤ totalDuration d (pickBest d b rest)
      · have hbm : pickBest d b rest = b := by
          rw [List.find?_cons_of_pos _ (by simp [hb])] at hIH
          exact (Option.some.inj hIH).symm
        rw [List.find?_cons_of_pos _ (by simp [hb])]
        rw [hbm]
      · have hr : ¬ totalDuration d r ≤ totalDuration d (pickBest d b rest) :=
          not_le.mpr (lt_of_lt_of_le (not_le.mp hb) (not_lt.mp h))
        rw [List.find?_cons_of_neg _ (by simp [hb])] at hIH
        rw [List.find?_cons_of_neg _ (by simp [hb])]
        rw [List.find?_cons_of_neg _ (by simp [hr])]
        exact hIH

theorem permsAux_ne_nil : ∀ (fuel : ℕ) (l : List ℕ),
    fuel = l.length → permsAux fuel l ≠ [] := by
  intro fuel
  induction fuel with
  | zero => intro l _; simp [permsAux]
  | succ fuel ih =>
    intro l hlen
    match l, hlen with
    | x :: xs, hlen =>
      have h1 : permsAux fuel xs ≠ [] := ih xs (by simpa using hlen)
      obtain ⟨p, hp⟩ := List.exists_mem_of_ne_nil _ h1
      apply List.ne_nil_of_mem (a := (x :: xs).getD 0 0 :: p)
      simp only [permsAux]
      apply List.mem_flatMap.mpr
      refine ⟨0, by simp, ?_⟩
      exact List.mem_map.mpr ⟨p, hp, rfl⟩

theorem bfCandidates_ne_nil (n : ℕ) : bfCandidates n ≠ [] := by
  unfold bfCandidates permsPy
  intro h
  exact permsAux_ne_nil _ _ rfl (List.map_eq_nil_iff.mp h)

theorem bruteForceRoute_eq (d : Mat) (n : ℕ) :
    ∃ b l, bfCandidates n = b :: l ∧ bruteForceRoute d n = pickBest d b l := by
  obtain ⟨b, l, hc⟩ := List.exists_cons_of_ne_nil (bfCandidates_ne_nil n)
  refine ⟨b, l, hc, ?_⟩
  unfold bruteForceRoute
  rw [hc]
  have h0 : List.foldl (bfStep d) none (b :: l) =
      List.foldl (bfStep d) (some (b, totalDuration d b)) l := rfl
  rw [h0, bfFold_eq_pickBest d l b]

theorem optimize_route_order (d dist : Mat) (n fuel : ℕ) (h2 : 2 ≤ n) :
    (optimize_route d dist n fuel).order = routeOrder d n fuel := by
  have h1 : ¬ n ≤ 1 := by omega
  simp [optimize_route, if_neg h1]

/-- Claim C2: for `2 ≤ N ≤ 6` and every duration matrix, the total
duration of the order returned by `optimize_route` is less than or
equal to that of every candidate order `[0] + perm` over the
permutations of `1..N-1` in `itertools.permutations` enumeration order,
and the returned order is the first candidate in enumeration order that
attains the minimum (strict-improvement scan keeps the earliest
minimizer). -/
theorem c2_exact_branch_optimal (d dist : Mat) (n fuel : ℕ)
    (h2 : 2 ≤ n) (h6 : n ≤ 6) :
    (∀ p ∈ bfCandidates n,
        totalDuration d ((optimize_route d dist n fuel).order) ≤
          totalDuration d p) ∧
      (bfCandidates n).find?
          (fun p => decide (totalDuration d p ≤
            totalDuration d ((optimize_route d dist n fuel).order))) =
        some ((optimize_route d dist n fuel).order) := by
  have ho : (optimize_route d dist n fuel).order = bruteForceRoute d n := by
    rw [optimize_route_order d dist n fuel h2, routeOrder, if_pos h6]
  rw [ho]
  obtain ⟨b, l, hc, hb⟩ := bruteForceRoute_eq d n
  rw [hb, hc]
  constructor
  · intro p hp
    rcases List.mem_cons.mp hp with h0 | h1
    · rw [h0]; exact (pickBest_le d l b).1
    · exact (pickBest_le d l b).2 p h1
  · exact pickBest_first d l b

/-- Witness for `c2_exact_branch_optimal` at the spec's 4-waypoint
scenario matrix. -/
theorem c2_exact_branch_optimal_witness :
    2 ≤ 4 ∧ 4 ≤ 6 ∧
      ((∀ p ∈ bfCandidates 4,
          totalDuration dEx4 ((optimize_route dEx4 dEx4 4 0).order) ≤
            totalDuration dEx4 p) ∧
        (bfCandidates 4).find?
            (fun p => decide (totalDuration dEx4 p ≤
              totalDuration dEx4 ((optimize_route dEx4 dEx4 4 0).order))) =
          some ((optimize_route dEx4 dEx4 4 0).order)) :=
  ⟨by norm_num, by norm_num,
    c2_exact_branch_optimal dEx4 dEx4 4 0 (by norm_num) (by norm_num)⟩

/-! ## Permutation invariants of the three strategy branches -/

theorem getD_eq_getElem_of_lt (l : List ℕ) (i : ℕ) (h : i < l.length) :
    l.getD i 0 = l[i] := by
  rw [List.getD_eq_getElem?_getD, List.getElem?_eq_getElem h]
  rfl

theorem perm_getD_cons_eraseIdx (l : List ℕ) (i : ℕ) (h : i < l.length) :
    (l.getD i 0 :: l.eraseIdx i).Perm l := by
  rw [List.eraseIdx_eq_take_drop_succ, getD_eq_getElem_of_lt l i h]
  refine (List.perm_middle).symm.trans ?_
  rw [List.getElem_cons_drop l i h, List.take_append_drop]

theorem permsAux_perm : ∀ (fuel : ℕ) (l : List ℕ), fuel = l.length →
    ∀ p ∈ permsAux fuel l, p.Perm l := by
  intro fuel
  induction fuel with
  | zero =>
    intro l hlen p hp
    simp only [permsAux, List.mem_singleton] at hp
    subst hp
    have h0 : l = [] := List.length_eq_zero.mp hlen.symm
    subst h0
    exact List.Perm.refl []
  | succ fuel ih =>
    intro l hlen p hp
    simp only [permsAux] at hp
    obtain ⟨i, hi, hp2⟩ := List.mem_flatMap.mp hp
    obtain ⟨q, hq, rfl⟩ := List.mem_map.mp hp2
    have hilt : i < l.length := List.mem_range.mp hi
    have hlen2 : fuel = (l.eraseIdx i).length := by
      rw [List.length_eraseIdx_of_lt hilt]
      omega
    have hperm := ih (l.eraseIdx i) hlen2 q hq
    exact (hperm.cons (l.getD i 0)).trans (perm_getD_cons_eraseIdx l i hilt)

theorem range_eq_cons (n : ℕ) (h : 1 ≤ n) :
    List.range n = 0 :: List.range' 1 (n - 1) := by
  rw [List.range_eq_range']
  obtain ⟨m, rfl⟩ : ∃ m, n = m + 1 := ⟨n - 1, by omega⟩
  rw [List.range'_succ]
  simp

theorem foldl_min_mem (f : ℕ → ℚ) :
    ∀ (xs : List ℕ) (b : ℕ),
      xs.foldl (fun acc y => if f y < f acc then y else acc) b ∈ b :: xs := by
  intro xs
  induction xs with
  | nil => intro b; simp
  | cons y ys ih =>
    intro b
    simp only [List.foldl_cons]
    by_cases h : f y < f b
    · rw [if_pos h]
      exact List.mem_cons_of_mem b (ih y)
    · rw [if_neg h]
      rcases List.mem_cons.mp (ih b) with h0 | h1
      · rw [h0]
        exact List.mem_cons_self b (y :: ys)
      · exact List.mem_cons_of_mem b (List.mem_cons_of_mem y h1)

theorem argminFirst_mem (f : ℕ → ℚ) (x : ℕ) (xs : List ℕ) :
    argminFirst f (x :: xs) ∈ x :: xs := by
  simp only [argminFirst]
  exact foldl_min_mem f xs x

theorem nnLoop_perm (d : Mat) :
    ∀ (fuel current : ℕ) (acc rem : List ℕ), rem.length ≤ fuel →
      (nnLoop d fuel current acc rem).Perm (acc ++ rem) := by
  intro fuel
  induction fuel with
  | zero =>
    intro current acc rem hlen
    have h0 : rem = [] := List.length_eq_zero.mp (Nat.le_zero.mp hlen)
    subst h0
    simp [nnLoop]
  | succ fuel ih =>
    intro current acc rem hlen
    match rem with
    | [] => simp [nnLoop]
    | x :: xs =>
      simp only [nnLoop]
      have hmem : argminFirst (fun y => d current y) (x :: xs) ∈ x :: xs :=
        argminFirst_mem _ x xs
      have hlen2 : ((x :: xs).erase (argminFirst (fun y => d current y) (x :: xs))).length ≤ fuel := by
        rw [List.length_erase_of_mem hmem]
        simp only [List.length_cons] at hlen ⊢
        omega
      refine (ih _ _ _ hlen2).trans ?_
      rw [List.append_assoc]
      exact List.Perm.append_left acc (List.perm_cons_erase hmem).symm

theorem nnLoop_prefix (d : Mat) :
    ∀ (fuel current : ℕ) (acc rem : List ℕ),
      ∃ t, nnLoop d fuel current acc rem = acc ++ t := by
  intro fuel
  induction fuel with
  | zero => intro current acc rem; exact ⟨[], by simp [nnLoop]⟩
  | succ fuel ih =>
    intro current acc rem
    match rem with
    | [] => exact ⟨[], by simp [nnLoop]⟩
    | x :: xs =>
      obtain ⟨t, ht⟩ := ih (argminFirst (fun y => d current y) (x :: xs))
        (acc ++ [argminFirst (fun y => d current y) (x :: xs)])
        ((x :: xs).erase (argminFirst (fun y => d current y) (x :: xs)))
      refine ⟨argminFirst (fun y => d current y) (x :: xs) :: t, ?_⟩
      simp only [nnLoop]
      rw [ht, List.append_assoc]
      rfl

theorem nnRoute_perm (d : Mat) (n : ℕ) (h : 1 ≤ n) :
    (nnRoute d n).Perm (List.range n) := by
  unfold nnRoute
  have h1 := nnLoop_perm d (n - 1) 0 [0] (List.range' 1 (n - 1))
    (by rw [List.length_range'])
  refine h1.trans ?_
  rw [range_eq_cons n h]
  exact List.Perm.refl _

theorem nnRoute_head (d : Mat) (n : ℕ) : (nnRoute d n).head? = some 0 := by
  unfold nnRoute
  obtain ⟨t, ht⟩ := nnLoop_prefix d (n - 1) 0 [0] (List.range' 1 (n - 1))
  rw [ht]
  rfl

theorem swapPairs_bounds (len i j : ℕ) (h : (i, j) ∈ swapPairs len) :
    1 ≤ i ∧ i < j ∧ j ≤ len - 1 := by
  unfold swapPairs at h
  obtain ⟨i2, hi2, hj2⟩ := List.mem_flatMap.mp h
  obtain ⟨j2, hj3, hpair⟩ := List.mem_map.mp hj2
  cases hpair
  obtain ⟨a, ha, hia⟩ := List.mem_range'.mp hi2
  obtain ⟨b, hb, hjb⟩ := List.mem_range'.mp hj3
  omega

theorem findSwapAux_some (d : Mat) (r : List ℕ) :
    ∀ (pairs : List (ℕ × ℕ)) (i j : ℕ), findSwapAux d r pairs = some (i, j) →
      (i, j) ∈ pairs ∧ swapImproves d r i j := by
  intro pairs
  induction pairs with
  | nil => intro i j h; simp [findSwapAux] at h
  | cons ab rest ih =>
    intro i j h
    obtain ⟨a, b⟩ := ab
    simp only [findSwapAux] at h
    by_cases himp : swapImproves d r a b
    · rw [if_pos himp] at h
      cases Option.some.inj h
      exact ⟨List.mem_cons_self _ _, himp⟩
    · rw [if_neg himp] at h
      obtain ⟨hmem, himp2⟩ := ih i j h
      exact ⟨List.mem_cons_of_mem _ hmem, himp2⟩

theorem findSwap_some (d : Mat) (r : List ℕ) (i j : ℕ)
    (h : findSwap d r = some (i, j)) :
    1 ≤ i ∧ i < j ∧ j ≤ r.length - 1 ∧ swapImproves d r i j := by
  obtain ⟨hmem, himp⟩ := findSwapAux_some d r _ i j h
  obtain ⟨h1, h2, h3⟩ := swapPairs_bounds r.length i j hmem
  exact ⟨h1, h2, h3, himp⟩

theorem drop_decomp (r : List ℕ) (i j : ℕ) (hij : i ≤ j) :
    r.drop i = (r.drop i).take (j - i) ++ r.drop j := by
  conv_lhs => rw [← List.take_append_drop (j - i) (r.drop i)]
  congr 1
  rw [List.drop_drop]
  congr 1
  omega

theorem applySwap_perm (r : List ℕ) (i j : ℕ) (hij : i ≤ j) :
    (applySwap r i j).Perm r := by
  unfold applySwap
  conv_rhs => rw [← List.take_append_drop i r, drop_decomp r i j hij]
  rw [← List.append_assoc]
  exact List.Perm.append_right _
    (List.Perm.append_left _ (List.reverse_perm _))

theorem applySwap_head (r : List ℕ) (i j : ℕ) (h1 : 1 ≤ i) :
    (applySwap r i j).head? = r.head? := by
  match r with
  | [] => simp [applySwap]
  | x :: xs =>
    match i, h1 with
    | k + 1, _ =>
      simp [applySwap]

theorem twoOptLoop_perm (d : Mat) :
    ∀ (fuel : ℕ) (r : List ℕ), (twoOptLoop d fuel r).Perm r := by
  intro fuel
  induction fuel with
  | zero => intro r; exact List.Perm.refl r
  | succ fuel ih =>
    intro r
    rcases hfs : findSwap d r with _ | ⟨i, j⟩
    · simp only [twoOptLoop, hfs]
      exact List.Perm.refl r
    · simp only [twoOptLoop, hfs]
      obtain ⟨h1, h2, h3, _⟩ := findSwap_some d r i j hfs
      exact (ih _).trans (applySwap_perm r i j (le_of_lt h2))

theorem twoOptLoop_head (d : Mat) :
    ∀ (fuel : ℕ) (r : List ℕ), (twoOptLoop d fuel r).head? = r.head? := by
  intro fuel
  induction fuel with
  | zero => intro r; rfl
  | succ fuel ih =>
    intro r
    rcases hfs : findSwap d r with _ | ⟨i, j⟩
    · simp only [twoOptLoop, hfs]
    · simp only [twoOptLoop, hfs]
      obtain ⟨h1, _, _, _⟩ := findSwap_some d r i j hfs
      rw [ih _, applySwap_head r i j h1]

theorem hybridLoop_prefix (d : Mat) :
    ∀ (fuel : ℕ) (acc rem : List ℕ), ∃ t, hybridLoop d fuel acc rem = acc ++ t := by
  intro fuel
  induction fuel with
  | zero => intro acc rem; exact ⟨[], by simp [hybridLoop]⟩
  | succ fuel ih =>
    intro acc rem
    match rem with
    | [] => exact ⟨[], by simp [hybridLoop]⟩
    | x :: xs =>
      simp only [hybridLoop]
      set current := acc.getLastD 0 with hc
      set closest := argminFirst (fun y => d current y) (x :: xs) with hcl
      set rem1 := (x :: xs).erase closest with hr1
      by_cases h2 : 2 ≤ rem1.length
      · rw [if_pos h2]
        rcases hf : rem1.find? (fun p => decide (0 < connScore d current p rem1)) with _ | p
        · obtain ⟨t, ht⟩ := ih (acc ++ [closest]) rem1
          refine ⟨closest :: t, ?_⟩
          show hybridLoop d fuel (acc ++ [closest]) rem1 = acc ++ closest :: t
          rw [ht, List.append_assoc]
          rfl
        · obtain ⟨t, ht⟩ := ih (acc ++ [closest] ++ [p]) (rem1.erase p)
          refine ⟨closest :: p :: t, ?_⟩
          show hybridLoop d fuel (acc ++ [closest] ++ [p]) (rem1.erase p) =
            acc ++ closest :: p :: t
          rw [ht, List.append_assoc, List.append_assoc]
          rfl
      · rw [if_neg h2]
        obtain ⟨t, ht⟩ := ih (acc ++ [closest]) rem1
        exact ⟨closest :: t, by rw [ht, List.append_assoc]; rfl⟩

theorem hybridLoop_perm (d : Mat) :
    ∀ (fuel : ℕ) (acc rem : List ℕ), rem.length ≤ fuel →
      (hybridLoop d fuel acc rem).Perm (acc ++ rem) := by
  intro fuel
  induction fuel with
  | zero =>
    intro acc rem hlen
    have h0 : rem = [] := List.length_eq_zero.mp (Nat.le_zero.mp hlen)
    subst h0
    simp [hybridLoop]
  | succ fuel ih =>
    intro acc rem hlen
    match rem with
    | [] => simp [hybridLoop]
    | x :: xs =>
      simp only [hybridLoop]
      set current := acc.getLastD 0 with hc
      have hmem : argminFirst (fun y => d current y) (x :: xs) ∈ x :: xs :=
        argminFirst_mem _ x xs
      set closest := argminFirst (fun y => d current y) (x :: xs) with hcl
      set rem1 := (x :: xs).erase closest with hr1
      have hlen1 : rem1.length = xs.length := by
        rw [hr1, List.length_erase_of_mem hmem]
        simp
      have hperm0 : (x :: xs).Perm (closest :: rem1) := List.perm_cons_erase hmem
      by_cases h2 : 2 ≤ rem1.length
      · rw [if_pos h2]
        rcases hf : rem1.find? (fun p => decide (0 < connScore d current p rem1)) with _ | p
        · refine (ih (acc ++ [closest]) rem1 ?_).trans ?_
          · simp only [List.length_cons] at hlen
            omega
          · rw [List.append_assoc]
            exact List.Perm.append_left acc hperm0.symm
        · have hpmem : p ∈ rem1 := List.mem_of_find?_eq_some hf
          have hperm1 : rem1.Perm (p :: rem1.erase p) := List.perm_cons_erase hpmem
          refine (ih (acc ++ [closest] ++ [p]) (rem1.erase p) ?_).trans ?_
          · have := List.length_erase_of_mem hpmem
            simp only [List.length_cons] at hlen
            omega
          · rw [List.append_assoc, List.append_assoc]
            refine List.Perm.append_left acc ?_
            exact (List.Perm.cons closest hperm1.symm).trans hperm0.symm
      · rw [if_neg h2]
        refine (ih (acc ++ [closest]) rem1 ?_).trans ?_
        · simp only [List.length_cons] at hlen
          omega
        · rw [List.append_assoc]
          exact List.Perm.append_left acc hperm0.symm

theorem hybridRoute_perm (d : Mat) (n : ℕ) (h : 1 ≤ n) :
    (hybridRoute d n).Perm (List.range n) := by
  unfold hybridRoute
  have h1 := hybridLoop_perm d (n - 1) [0] (List.range' 1 (n - 1))
    (by rw [List.length_range'])
  refine h1.trans ?_
  rw [range_eq_cons n h]
  exact List.Perm.refl _

theorem hybridRoute_head (d : Mat) (n : ℕ) : (hybridRoute d n).head? = some 0 := by
  unfold hybridRoute
  obtain ⟨t, ht⟩ := hybridLoop_prefix d (n - 1) [0] (List.range' 1 (n - 1))
  rw [ht]
  rfl

theorem bruteForceRoute_mem (d : Mat) (n : ℕ) :
    bruteForceRoute d n ∈ bfCandidates n := by
  obtain ⟨b, l, hc, hb⟩ := bruteForceRoute_eq d n
  rw [hb, hc]
  exact pickBest_mem d l b

/-- Claim C3: for every duration matrix and every `N ≥ 2`, in each of
the three strategy branches the index order produced by
`optimize_route` begins with index 0, is a permutation of `0..N-1`, has
length exactly `N`, and repeats no index. -/
theorem c3_route_is_permutation (d dist : Mat) (n fuel : ℕ) (h2 : 2 ≤ n) :
    ((optimize_route d dist n fuel).order).head? = some 0 ∧
      ((optimize_route d dist n fuel).order).Perm (List.range n) ∧
      ((optimize_route d dist n fuel).order).length = n ∧
      ((optimize_route d dist n fuel).order).Nodup := by
  have hmain : ((optimize_route d dist n fuel).order).head? = some 0 ∧
      ((optimize_route d dist n fuel).order).Perm (List.range n) := by
    rw [optimize_route_order d dist n fuel h2]
    unfold routeOrder
    by_cases h6 : n ≤ 6
    · rw [if_pos h6]
      have hmem := bruteForceRoute_mem d n
      unfold bfCandidates at hmem
      obtain ⟨p, hp, hpe⟩ := List.mem_map.mp hmem
      have hperm : p.Perm (List.range' 1 (n - 1)) := by
        unfold permsPy at hp
        exact permsAux_perm _ _ rfl p hp
      constructor
      · rw [← hpe]
        rfl
      · rw [← hpe, range_eq_cons n (by omega)]
        exact hperm.cons 0
    · rw [if_neg h6]
      by_cases h12 : n ≤ 12
      · rw [if_pos h12]
        constructor
        · rw [twoOptLoop_head d fuel _]
          exact nnRoute_head d n
        · exact (twoOptLoop_perm d fuel _).trans (nnRoute_perm d n (by omega))
      · rw [if_neg h12]
        exact ⟨hybridRoute_head d n, hybridRoute_perm d n (by omega)⟩
  refine ⟨hmain.1, hmain.2, ?_, ?_⟩
  · rw [hmain.2.length_eq, List.length_range]
  · exact (hmain.2.nodup_iff).mpr (List.nodup_range n)

/-- Witness for `c3_route_is_permutation` at `n = 2`. -/
theorem c3_route_is_permutation_witness :
    2 ≤ 2 ∧
      ((optimize_route dC1 distC1 2 0).order).head? = some 0 ∧
      ((optimize_route dC1 distC1 2 0).order).Perm (List.range 2) ∧
      ((optimize_route dC1 distC1 2 0).order).length = 2 ∧
      ((optimize_route dC1 distC1 2 0).order).Nodup :=
  ⟨le_refl 2, c3_route_is_permutation dC1 distC1 2 0 (le_refl 2)⟩

/-! ## 2-opt and edge sums -/

theorem totalDuration_append (d : Mat) (y : ℕ) (ys : List ℕ) :
    ∀ (xs : List ℕ), totalDuration d (xs ++ y :: ys) =
      totalDuration d (xs ++ [y]) + totalDuration d (y :: ys) := by
  intro xs
  induction xs with
  | nil =>
    show totalDuration d (y :: ys) = totalDuration d [y] + totalDuration d (y :: ys)
    rw [show totalDuration d [y] = 0 from rfl]
    ring
  | cons x xs ih =>
    cases xs with
    | nil =>
      show totalDuration d (x :: y :: ys) =
        totalDuration d [x, y] + totalDuration d (y :: ys)
      rw [show totalDuration d (x :: y :: ys) =
          d x y + totalDuration d (y :: ys) from rfl,
        show totalDuration d [x, y] = d x y + totalDuration d [y] from rfl,
        show totalDuration d [y] = 0 from rfl]
      ring
    | cons x2 xs2 =>
      simp only [List.cons_append] at ih ⊢
      rw [show totalDuration d (x :: x2 :: (xs2 ++ y :: ys)) =
          d x x2 + totalDuration d (x2 :: (xs2 ++ y :: ys)) from rfl,
        show totalDuration d (x :: x2 :: (xs2 ++ [y])) =
          d x x2 + totalDuration d (x2 :: (xs2 ++ [y])) from rfl,
        ih]
      ring

theorem totalDuration_snoc (d : Mat) (y : ℕ) :
    ∀ (xs : List ℕ), totalDuration d (xs ++ [y]) =
      totalDuration d xs + lastEdge d xs y := by
  intro xs
  induction xs with
  | nil =>
    show totalDuration d [y] = totalDuration d [] + lastEdge d [] y
    rw [show totalDuration d [y] = 0 from rfl,
      show totalDuration d ([] : List ℕ) = 0 from rfl,
      show lastEdge d [] y = 0 from rfl]
    ring
  | cons x xs ih =>
    cases xs with
    | nil =>
      show totalDuration d [x, y] = totalDuration d [x] + lastEdge d [x] y
      rw [show totalDuration d [x, y] = d x y + totalDuration d [y] from rfl,
        show totalDuration d [y] = 0 from rfl,
        show totalDuration d [x] = 0 from rfl,
        show lastEdge d [x] y = d x y from rfl]
      ring
    | cons x2 xs2 =>
      simp only [List.cons_append] at ih ⊢
      rw [show totalDuration d (x :: x2 :: (xs2 ++ [y])) =
          d x x2 + totalDuration d (x2 :: (xs2 ++ [y])) from rfl,
        ih,
        show totalDuration d (x :: x2 :: xs2) =
          d x x2 + totalDuration d (x2 :: xs2) from rfl,
        show lastEdge d (x :: x2 :: xs2) y = lastEdge d (x2 :: xs2) y from by
          unfold lastEdge
          rw [List.getLast?_cons_cons]]
      ring

theorem totalDuration_reverse (d : Mat) (hsym : ∀ a b, d a b = d b a) :
    ∀ (l : List ℕ), totalDuration d l.reverse = totalDuration d l := by
  intro l
  induction l with
  | nil => rfl
  | cons a l ih =>
    cases l with
    | nil => rfl
    | cons b t =>
      rw [show (a :: b :: t).reverse = (b :: t).reverse ++ [a] from by simp,
        totalDuration_snoc d a ((b :: t).reverse), ih,
        show lastEdge d ((b :: t).reverse) a = d b a from by
          unfold lastEdge
          rw [List.getLast?_reverse]
          rfl,
        show totalDuration d (a :: b :: t) =
          d a b + totalDuration d (b :: t) from rfl,
        hsym a b]
      ring

theorem totalDuration_three (d : Mat) (A : List ℕ) (m0 : ℕ) (M0 : List ℕ)
    (b0 : ℕ) (B0 : List ℕ) :
    totalDuration d (A ++ (m0 :: M0) ++ (b0 :: B0)) =
      totalDuration d A + lastEdge d A m0 + totalDuration d (m0 :: M0) +
        lastEdge d (m0 :: M0) b0 + totalDuration d (b0 :: B0) := by
  rw [List.append_assoc]
  simp only [List.cons_append]
  rw [totalDuration_append d m0 (M0 ++ b0 :: B0) A,
    totalDuration_snoc d m0 A,
    show m0 :: (M0 ++ b0 :: B0) = (m0 :: M0) ++ (b0 :: B0) from rfl,
    totalDuration_append d b0 B0 (m0 :: M0),
    totalDuration_snoc d b0 (m0 :: M0)]
  ring

theorem totalDuration_decomp (d : Mat) (A M B : List ℕ)
    (hM : M ≠ []) (hB : B ≠ []) :
    totalDuration d (A ++ M ++ B) =
      totalDuration d A + lastEdge d A (M.headD 0) + totalDuration d M +
        lastEdge d M (B.headD 0) + totalDuration d B := by
  obtain ⟨m0, M0, rfl⟩ := List.exists_cons_of_ne_nil hM
  obtain ⟨b0, B0, rfl⟩ := List.exists_cons_of_ne_nil hB
  exact totalDuration_three d A m0 M0 b0 B0

theorem totalDuration_applySwap_lt (d : Mat) (hsym : ∀ a b, d a b = d b a)
    (r : List ℕ) (i j : ℕ) (h1 : 1 ≤ i) (hij : i < j) (hj : j ≤ r.length - 1)
    (himp : swapImproves d r i j) :
    totalDuration d (applySwap r i j) < totalDuration d r := by
  have hjlen : j < r.length := by omega
  have hMne : (r.drop i).take (j - i) ≠ [] := by
    rw [← List.length_pos, List.length_take, List.length_drop]
    omega
  have hBne : r.drop j ≠ [] := by
    rw [← List.length_pos, List.length_drop]
    omega
  have hMRne : ((r.drop i).take (j - i)).reverse ≠ [] := by
    simpa using hMne
  have hr : r = r.take i ++ (r.drop i).take (j - i) ++ r.drop j := by
    rw [List.append_assoc, ← drop_decomp r i j (le_of_lt hij),
      List.take_append_drop]
  have hAlast : (r.take i).getLast? = some (r.getD (i - 1) 0) := by
    rw [List.getLast?_eq_getElem?, List.length_take]
    have hmin : min i r.length - 1 = i - 1 := by omega
    rw [hmin, List.getElem?_take_of_lt (by omega : i - 1 < i),
      List.getElem?_eq_getElem (by omega : i - 1 < r.length),
      getD_eq_getElem_of_lt r (i - 1) (by omega)]
  have hMhead : ((r.drop i).take (j - i)).head? = some (r.getD i 0) := by
    rw [List.head?_eq_getElem?, List.getElem?_take_of_lt (by omega : 0 < j - i),
      List.getElem?_drop, Nat.add_zero,
      List.getElem?_eq_getElem (by omega : i < r.length),
      getD_eq_getElem_of_lt r i (by omega)]
  have hMlast : ((r.drop i).take (j - i)).getLast? = some (r.getD (j - 1) 0) := by
    rw [List.getLast?_eq_getElem?, List.length_take, List.length_drop]
    have hmin : min (j - i) (r.length - i) - 1 = j - i - 1 := by omega
    rw [hmin, List.getElem?_take_of_lt (by omega : j - i - 1 < j - i),
      List.getElem?_drop]
    have hidx : i + (j - i - 1) = j - 1 := by omega
    rw [hidx, List.getElem?_eq_getElem (by omega : j - 1 < r.length),
      getD_eq_getElem_of_lt r (j - 1) (by omega)]
  have hBhead : (r.drop j).head? = some (r.getD j 0) := by
    rw [List.head?_eq_getElem?, List.getElem?_drop, Nat.add_zero,
      List.getElem?_eq_getElem hjlen, getD_eq_getElem_of_lt r j hjlen]
  have htotr : totalDuration d r =
      totalDuration d (r.take i) + d (r.getD (i - 1) 0) (r.getD i 0) +
        totalDuration d ((r.drop i).take (j - i)) +
        d (r.getD (j - 1) 0) (r.getD j 0) + totalDuration d (r.drop j) := by
    conv_lhs => rw [hr]
    rw [totalDuration_decomp d _ _ _ hMne hBne,
      show ((r.drop i).take (j - i)).headD 0 = r.getD i 0 from by
        rw [List.headD_eq_head?_getD, hMhead]; rfl,
      show (r.drop j).headD 0 = r.getD j 0 from by
        rw [List.headD_eq_head?_getD, hBhead]; rfl,
      show lastEdge d (r.take i) (r.getD i 0) =
          d (r.getD (i - 1) 0) (r.getD i 0) from by
        unfold lastEdge; rw [hAlast],
      show lastEdge d ((r.drop i).take (j - i)) (r.getD j 0) =
          d (r.getD (j - 1) 0) (r.getD j 0) from by
        unfold lastEdge; rw [hMlast]]
  have htots : totalDuration d (applySwap r i j) =
      totalDuration d (r.take i) + d (r.getD (i - 1) 0) (r.getD (j - 1) 0) +
        totalDuration d ((r.drop i).take (j - i)) +
        d (r.getD i 0) (r.getD j 0) + totalDuration d (r.drop j) := by
    rw [show applySwap r i j =
        r.take i ++ ((r.drop i).take (j - i)).reverse ++ r.drop j from rfl,
      totalDuration_decomp d _ _ _ hMRne hBne,
      show (((r.drop i).take (j - i)).reverse).headD 0 = r.getD (j - 1) 0 from by
        rw [List.headD_eq_head?_getD, List.head?_reverse, hMlast]; rfl,
      show (r.drop j).headD 0 = r.getD j 0 from by
        rw [List.headD_eq_head?_getD, hBhead]; rfl,
      show lastEdge d (r.take i) (r.getD (j - 1) 0) =
          d (r.getD (i - 1) 0) (r.getD (j - 1) 0) from by
        unfold lastEdge; rw [hAlast],
      show lastEdge d (((r.drop i).take (j - i)).reverse) (r.getD j 0) =
          d (r.getD i 0) (r.getD j 0) from by
        unfold lastEdge; rw [List.getLast?_reverse, hMhead],
      totalDuration_reverse d hsym]
  unfold swapImproves at himp
  rw [htotr, htots]
  linarith

theorem twoOptLoop_total_le (d : Mat) (hsym : ∀ a b, d a b = d b a) :
    ∀ (fuel : ℕ) (r : List ℕ),
      totalDuration d (twoOptLoop d fuel r) ≤ totalDuration d r := by
  intro fuel
  induction fuel with
  | zero => intro r; exact le_refl _
  | succ fuel ih =>
    intro r
    rcases hfs : findSwap d r with _ | ⟨i, j⟩
    · simp only [twoOptLoop, hfs]
      exact le_refl _
    · simp only [twoOptLoop, hfs]
      obtain ⟨h1, h2, h3, himp⟩ := findSwap_some d r i j hfs
      exact le_trans (ih _)
        (le_of_lt (totalDuration_applySwap_lt d hsym r i j h1 h2 h3 himp))

/-- Claim C4, counterexample: an asymmetric 7×7 duration matrix on which
the nearest-neighbour seed has total duration 23 while the 2-opt loop,
run to its fixpoint (no further pair passes the boundary-edge test, so
the Python `while improved` loop has exited), returns an order of total
duration 25.  The 2-opt acceptance test only compares the two boundary
edges of the reversed slice; with an asymmetric matrix the reversed
interior edges change cost too, so an accepted move can increase the
total. -/
theorem c4_counterexample :
    findSwap dEx7 (twoOptLoop dEx7 10 (nnRoute dEx7 7)) = none ∧
      totalDuration dEx7 (nnRoute dEx7 7) <
        totalDuration dEx7 (twoOptLoop dEx7 10 (nnRoute dEx7 7)) := by
  with_unfolding_all decide

/-- Claim C4, amended: for a **symmetric** duration matrix (the
boundary-edge test then accounts exactly for the change of the total,
because the reversed interior edges keep their cost), the order after
any number of accepted 2-opt moves has total duration at most that of
the nearest-neighbour seed it started from, for every waypoint count
`7 ≤ N ≤ 12`. -/
theorem c4_symmetric_two_opt_monotone (d : Mat) (hsym : ∀ a b, d a b = d b a)
    (n fuel : ℕ) (h7 : 7 ≤ n) (h12 : n ≤ 12) :
    totalDuration d (twoOptLoop d fuel (nnRoute d n)) ≤
      totalDuration d (nnRoute d n) :=
  twoOptLoop_total_le d hsym fuel (nnRoute d n)

/-- Witness for `c4_symmetric_two_opt_monotone` on a symmetric matrix
(distances on the integer line), `n = 7`, fuel 20. -/
theorem c4_symmetric_two_opt_monotone_witness :
    (∀ a b, dSym a b = dSym b a) ∧ 7 ≤ 7 ∧ 7 ≤ 12 ∧
      totalDuration dSym (twoOptLoop dSym 20 (nnRoute dSym 7)) ≤
        totalDuration dSym (nnRoute dSym 7) :=
  ⟨fun a b => abs_sub_comm (a : ℚ) (b : ℚ), le_refl 7, by norm_num,
    c4_symmetric_two_opt_monotone dSym
      (fun a b => abs_sub_comm (a : ℚ) (b : ℚ)) 7 20 (le_refl 7) (by norm_num)⟩
